import Mathlib

/-!
A verification development for the `tio4150` network-design model
(`src/model.py`).  The Python code builds a Gurobi MILP choosing a "core"
backbone (cycle or path) over a set of cities plus "sub" edges carrying
demand flow.  We embed the constraint system shallowly: solved variable
values become rational-valued functions, each Gurobi constraint group
becomes a field of `FeasibleLin`, and the single nonlinear (`** 1.5`)
cost constraint is stated over the reals.  The solution-extraction
helpers (`normalize`, `non_zero`, `edge_info`, `city_info`) are embedded
as executable functions.
-/

namespace Autonomax

/-- Source: `src/model.py` lines 22-24: `normalize(i, j)` returns the pair with the
smaller component first.  The Python version asserts `i != j`; theorems that
need that precondition carry it as a hypothesis. -/
def normalize {α : Type} [LinearOrder α] (i j : α) : α × α :=
  if i < j then (i, j) else (j, i)

/-- Source: `src/model.py` lines 27-30: `non_zero(items)` yields the keys of all
entries whose solved value has absolute value strictly greater than `1e-9`.
The Python generator walks `items.items()`; we embed the dictionary as an
association list in insertion order. -/
def non_zero {α : Type} (items : List (α × ℚ)) : List α :=
  (items.filter (fun kv => 1e-9 < |kv.2|)).map Prod.fst

/-- Source: `src/model.py` lines 8-19: the problem instance.  The distance matrix is
embedded as a function of the two indices. -/
structure Config where
  cities : List String
  distances : ℕ → ℕ → ℚ
  demand : List ℚ
  core_city_count : ℕ
  core_net_is_cycle : Bool

/-- Source: `C = len(config.cities)` (`src/model.py` line 43). -/
def Config.C (cfg : Config) : ℕ := cfg.cities.length

/-- Source: `CITIES = list(range(C))` (`src/model.py` line 44), as a finite set. -/
def Config.CITIES (cfg : Config) : Finset ℕ := Finset.range cfg.C

/-- Source: `EDGES = list(combinations(CITIES, r=2))` (`src/model.py` line 45):
all pairs `(i, j)` with `i < j < C`, as a finite set. -/
def Config.EDGES (cfg : Config) : Finset (ℕ × ℕ) :=
  (Finset.range cfg.C ×ˢ Finset.range cfg.C).filter (fun p => p.1 < p.2)

/-- Source: `EDGES` in the iteration order of `combinations(CITIES, r=2)` (used by
the extraction helpers, which walk Gurobi `tupledict`s in insertion order). -/
def EDGESlist (cfg : Config) : List (ℕ × ℕ) :=
  (List.range cfg.C).flatMap fun i =>
    ((List.range cfg.C).filter fun j => decide (i < j)).map fun j => (i, j)

/-- Source: `demand[i]`: list indexing, defaulting to `0` out of range (the Python
code only indexes within range). -/
def Config.demandAt (cfg : Config) (i : ℕ) : ℚ := cfg.demand.getD i 0

/-- Source: `sum(demand)` (`src/model.py` lines 135-137 and elsewhere). -/
def Config.sumDemand (cfg : Config) : ℚ := cfg.demand.sum

/-- Source: `min(demand)` (`src/model.py` line 183).  Python's `min` errors on an
empty list; we default to `0` there (the model is only built for nonempty
city lists). -/
def Config.minDemand (cfg : Config) : ℚ := cfg.demand.min?.getD 0

/-- Source: `D[e]` for an edge key `e` (the distance matrix indexed by a pair). -/
def Config.distAt (cfg : Config) (e : ℕ × ℕ) : ℚ := cfg.distances e.1 e.2

/-- One assignment of values to every decision variable created in
`Autonomax.__init__` (`src/model.py` lines 48-219).  Edge-keyed variables
are keyed on normalized pairs, exactly as the Gurobi `tupledict`s are. -/
structure Assignment where
  is_control_center : ℕ → ℚ
  is_core_edge : ℕ × ℕ → ℚ
  is_core_city : ℕ → ℚ
  is_connected_step : ℕ → ℕ → ℚ
  is_connectable_step : ℕ → ℕ → ℕ → ℚ
  flow : ℕ × ℕ → ℚ
  abs_flow : ℕ × ℕ → ℚ
  is_sub_edge : ℕ × ℕ → ℚ
  edge_cost : ℕ × ℕ → ℚ

/-- A value of a `GRB.BINARY` variable. -/
def IsBinary (q : ℚ) : Prop := q = 0 ∨ q = 1

instance (q : ℚ) : Decidable (IsBinary q) := by
  unfold IsBinary; infer_instance

/-- All linear constraints of the model built in `Autonomax.__init__`
(`src/model.py` lines 48-191), together with the variable-type and
variable-bound declarations of `addVars`.  Field comments cite the source
lines. -/
@[mk_iff]
structure FeasibleLin (cfg : Config) (a : Assignment) : Prop where
  /-- line 48: `is_control_center` is `GRB.BINARY`. -/
  binary_control : ∀ i ∈ cfg.CITIES, IsBinary (a.is_control_center i)
  /-- line 53: `is_core_edge` is `GRB.BINARY`. -/
  binary_core_edge : ∀ e ∈ cfg.EDGES, IsBinary (a.is_core_edge e)
  /-- line 57: `is_core_city` is `GRB.BINARY`. -/
  binary_core_city : ∀ i ∈ cfg.CITIES, IsBinary (a.is_core_city i)
  /-- line 100: `is_connected_step` is `GRB.BINARY`, indexed over `C × T`. -/
  binary_connected : ∀ i ∈ cfg.CITIES, ∀ t ∈ Finset.range cfg.core_city_count,
    IsBinary (a.is_connected_step i t)
  /-- line 102: `is_connectable_step` is `GRB.BINARY`, over `C × C × [1,T)`. -/
  binary_connectable : ∀ i ∈ cfg.CITIES, ∀ j ∈ cfg.CITIES,
    ∀ t ∈ Finset.Ico 1 cfg.core_city_count, IsBinary (a.is_connectable_step i j t)
  /-- line 170: `is_sub_edge` is `GRB.BINARY`. -/
  binary_sub_edge : ∀ e ∈ cfg.EDGES, IsBinary (a.is_sub_edge e)
  /-- line 135: `flow` has bounds `lb=-sum(demand)`, `ub=sum(demand)`. -/
  flow_lb : ∀ e ∈ cfg.EDGES, -cfg.sumDemand ≤ a.flow e
  flow_ub : ∀ e ∈ cfg.EDGES, a.flow e ≤ cfg.sumDemand
  /-- line 137: `abs_flow` has the default `lb=0` and `ub=sum(demand)`. -/
  abs_flow_lb : ∀ e ∈ cfg.EDGES, 0 ≤ a.abs_flow e
  abs_flow_ub : ∀ e ∈ cfg.EDGES, a.abs_flow e ≤ cfg.sumDemand
  /-- line 194: `edge_cost` has the default `lb=0`. -/
  edge_cost_nonneg : ∀ e ∈ cfg.EDGES, 0 ≤ a.edge_cost e
  /-- line 50: exactly one control center. -/
  one_control_center : ∑ i ∈ cfg.CITIES, a.is_control_center i = 1
  /-- lines 60-63: the control center is a core city. -/
  control_center_core : ∀ i ∈ cfg.CITIES, a.is_core_city i ≥ a.is_control_center i
  /-- lines 66-70: a core city needs at least one adjacent core edge. -/
  core_city_ub : ∀ i ∈ cfg.CITIES,
    a.is_core_city i ≤ ∑ j ∈ cfg.CITIES.erase i, a.is_core_edge (normalize i j)
  /-- lines 80-81: cycle has `|V| = |E|`, path has `|V| = |E| + 1`. -/
  cycle_path_card : ∑ i ∈ cfg.CITIES, a.is_core_city i =
    ∑ e ∈ cfg.EDGES, a.is_core_edge e + 1 - (if cfg.core_net_is_cycle then 1 else 0)
  /-- lines 84-88: core cities have degree at most 2. -/
  degree_bound : ∀ i ∈ cfg.CITIES,
    2 * a.is_core_city i ≥ ∑ j ∈ cfg.CITIES.erase i, a.is_core_edge (normalize i j)
  /-- lines 91-94: there are exactly `NC` core cities. -/
  exact_core_count : ∑ i ∈ cfg.CITIES, a.is_core_city i = cfg.core_city_count
  /-- lines 106-109: at timestep 0, only the control center is connected. -/
  step_zero : ∀ i ∈ cfg.CITIES, a.is_connected_step i 0 = a.is_control_center i
  /-- lines 113-117: the linking constraint for `is_connectable_step`. -/
  linking : ∀ t ∈ Finset.Ico 1 cfg.core_city_count, ∀ e ∈ cfg.EDGES,
    2 * a.is_connectable_step e.1 e.2 t ≤
      a.is_connected_step e.1 (t - 1) + a.is_connected_step e.2 (t - 1) +
        a.is_core_edge e
  /-- lines 121-125: a city becomes connected at step `t` only if some
  connectable variable justifies it. -/
  propagation : ∀ t ∈ Finset.Ico 1 cfg.core_city_count, ∀ i ∈ cfg.CITIES,
    a.is_connected_step i t ≤
      ∑ j ∈ cfg.CITIES.erase i,
        a.is_connectable_step (normalize i j).1 (normalize i j).2 t
  /-- lines 128-132: every core city is connected at exactly one timestep. -/
  closure : ∀ i ∈ cfg.CITIES,
    ∑ t ∈ Finset.range cfg.core_city_count, a.is_connected_step i t =
      a.is_core_city i
  /-- lines 138-140: `abs_flow[e] == abs_(flow[e])`. -/
  abs_flow_eq : ∀ e ∈ cfg.EDGES, a.abs_flow e = |a.flow e|
  /-- lines 164-167: conservation of flow. -/
  conservation : ∀ i ∈ cfg.CITIES,
    cfg.sumDemand * a.is_control_center i =
      cfg.demandAt i + ∑ j ∈ cfg.CITIES.erase i,
        a.flow (normalize i j) * (if i > j then 1 else -1)
  /-- lines 174-179: flow needs a core or sub edge. -/
  flow_needs_edge : ∀ e ∈ cfg.EDGES,
    cfg.sumDemand * (a.is_sub_edge e + a.is_core_edge e) ≥ a.abs_flow e
  /-- lines 182-185: `min(demand) * is_sub_edge[e] <= abs_flow[e]`. -/
  sub_edge_needs_flow : ∀ e ∈ cfg.EDGES,
    cfg.minDemand * a.is_sub_edge e ≤ a.abs_flow e
  /-- lines 188-191: an edge is never both core and sub. -/
  not_both : ∀ e ∈ cfg.EDGES, a.is_core_edge e + a.is_sub_edge e ≤ 1

instance (cfg : Config) (a : Assignment) : Decidable (FeasibleLin cfg a) :=
  decidable_of_iff _ (feasibleLin_iff cfg a).symm

/-- Source: `(0.1 * D[e]) ** 1.5`, the power-law coefficient (`src/model.py`
lines 197-200), as a real power. -/
noncomputable def pow15 (x : ℝ) : ℝ := x ^ (1.5 : ℝ)

/-- Source: `M(e) = 10 + (0.1 * D[e])**1.5 * sum(demand)` (`src/model.py` line 197). -/
noncomputable def bigM (cfg : Config) (e : ℕ × ℕ) : ℝ :=
  10 + pow15 (0.1 * (cfg.distAt e : ℝ)) * (cfg.sumDemand : ℝ)

/-- Source: `src/model.py` lines 198-202: the edge-cost lower-bound constraint,
stated over the reals because of the `** 1.5` term. -/
def edgeCostLB (cfg : Config) (a : Assignment) : Prop :=
  ∀ e ∈ cfg.EDGES,
    10 * (a.is_sub_edge e : ℝ) +
        pow15 (0.1 * (cfg.distAt e : ℝ)) * (a.abs_flow e : ℝ) ≤
      (a.edge_cost e : ℝ) + bigM cfg e * (a.is_core_edge e : ℝ)

/-- A feasible assignment of the complete model built by
`Autonomax.__init__`: all linear constraints plus the edge-cost constraint. -/
structure Feasible (cfg : Config) (a : Assignment) : Prop where
  lin : FeasibleLin cfg a
  cost : edgeCostLB cfg a

/-- The undirected adjacency relation of the solved core subgraph: two
distinct cities joined by an edge whose `is_core_edge` value is `1`. -/
def coreEdgeAdj (cfg : Config) (a : Assignment) (i j : ℕ) : Prop :=
  i ∈ cfg.CITIES ∧ j ∈ cfg.CITIES ∧ i ≠ j ∧ a.is_core_edge (normalize i j) = 1

/-- The number of edges incident to city `i` whose solved `is_core_edge`
value is `1` (the "core-degree" of `i`). -/
def coreDegree (cfg : Config) (a : Assignment) (i : ℕ) : ℕ :=
  ((cfg.CITIES.erase i).filter
    (fun j => a.is_core_edge (normalize i j) = 1)).card

/-- Source: `src/model.py` line 248: the `IngoingFlow` entry of `city_info` — the
total absolute flow directed into city `i` under the sign convention that
positive flow on edge `(a, b)` (with `a < b`) runs from `a` to `b`. -/
def IngoingFlow (cfg : Config) (a : Assignment) (i : ℕ) : ℚ :=
  ∑ e ∈ cfg.EDGES, |a.flow e| *
    (if (e.2 = i ∧ 0 < a.flow e) ∨ (e.1 = i ∧ a.flow e < 0) then 1 else 0)

/-- Source: `src/model.py` line 250: the `OutgoingFlow` entry of `city_info`. -/
def OutgoingFlow (cfg : Config) (a : Assignment) (i : ℕ) : ℚ :=
  ∑ e ∈ cfg.EDGES, |a.flow e| *
    (if (e.1 = i ∧ 0 < a.flow e) ∨ (e.2 = i ∧ a.flow e < 0) then 1 else 0)

/-- One row of the `city_info` table (`src/model.py` lines 241-251). -/
structure CityRecord where
  Index : ℕ
  Name : String
  IsCoreCity : Bool
  IsControlCenter : Bool
  Demand : ℚ
  IngoingFlow : ℚ
  OutgoingFlow : ℚ

/-- Source: `Autonomax.city_info` (`src/model.py` lines 237-251). -/
def city_info (cfg : Config) (a : Assignment) : List CityRecord :=
  (List.range cfg.C).map fun i =>
    { Index := i
      Name := cfg.cities.getD i ""
      IsCoreCity :=
        (non_zero ((List.range cfg.C).map fun k => (k, a.is_core_city k))).contains i
      IsControlCenter :=
        (non_zero ((List.range cfg.C).map fun k => (k, a.is_control_center k))).contains i
      Demand := cfg.demandAt i
      IngoingFlow := IngoingFlow cfg a i
      OutgoingFlow := OutgoingFlow cfg a i }

/-- Source: `core = list(non_zero(self.is_core_edge))` (`src/model.py` line 224). -/
def coreKeys (cfg : Config) (a : Assignment) : List (ℕ × ℕ) :=
  non_zero ((EDGESlist cfg).map fun e => (e, a.is_core_edge e))

/-- Source: `utilized = [normalize(*e) for e in non_zero(self.flow)]`
(`src/model.py` line 225). -/
def utilizedKeys (cfg : Config) (a : Assignment) : List (ℕ × ℕ) :=
  (non_zero ((EDGESlist cfg).map fun e => (e, a.flow e))).map fun e =>
    normalize e.1 e.2

/-- Source: `set(core + utilized)` (`src/model.py` line 235).  Python's set has
unspecified iteration order; we keep first occurrences, which the
order-insensitive theorems below do not depend on. -/
def edgeInfoKeys (cfg : Config) (a : Assignment) : List (ℕ × ℕ) :=
  (coreKeys cfg a ++ utilizedKeys cfg a).dedup

/-- One row of the `edge_info` table (`src/model.py` lines 228-235). -/
structure EdgeRecord where
  From : String
  To : String
  «Type» : String
  Flow : ℚ
  Cost : ℚ
  Distance : ℚ

/-- The record built for one key of `edge_info` (`src/model.py`
lines 228-235). -/
def mkEdgeRecord (cfg : Config) (a : Assignment) (core : List (ℕ × ℕ))
    (e : ℕ × ℕ) : EdgeRecord :=
  { From := cfg.cities.getD e.1 ""
    To := cfg.cities.getD e.2 ""
    «Type» := if normalize e.1 e.2 ∈ core then "CORE" else "SUB"
    Flow := a.flow e
    Cost := 10 * cfg.distAt e * a.is_core_edge (normalize e.1 e.2) +
      a.edge_cost (normalize e.1 e.2)
    Distance := cfg.distAt e }

/-- Source: `Autonomax.edge_info` (`src/model.py` lines 223-235). -/
def edge_info (cfg : Config) (a : Assignment) : List EdgeRecord :=
  (edgeInfoKeys cfg a).map (mkEdgeRecord cfg a (coreKeys cfg a))

/-! ### Concrete instances used as witnesses and counterexamples -/

/-- Three cities with zero demand, requesting a 3-city core path. -/
def cfg3 : Config :=
  { cities := ["A", "B", "C"]
    distances := fun i j => if i = j then 0 else 1
    demand := [0, 0, 0]
    core_city_count := 3
    core_net_is_cycle := false }

/-- A feasible solution of `cfg3`: control center `0`, core path
`1 - 0 - 2`, no flow.  It additionally sets the unconstrained-but-allowed
variable `is_connectable_step[1,2,2] = 1` even though `(1,2)` is not a core
edge: both endpoints are connected at step 1, so the linking constraint is
satisfied with slack. -/
def asg3 : Assignment :=
  { is_control_center := fun i => if i = 0 then 1 else 0
    is_core_edge := fun e => if e = (0, 1) ∨ e = (0, 2) then 1 else 0
    is_core_city := fun _ => 1
    is_connected_step := fun i t =>
      if (i, t) = (0, 0) ∨ (i, t) = (1, 1) ∨ (i, t) = (2, 1) then 1 else 0
    is_connectable_step := fun i j t =>
      if (i, j, t) = (0, 1, 1) ∨ (i, j, t) = (0, 2, 1) ∨ (i, j, t) = (1, 2, 2)
        then 1 else 0
    flow := fun _ => 0
    abs_flow := fun _ => 0
    is_sub_edge := fun _ => 0
    edge_cost := fun _ => 0 }

/-- Three cities with zero demand, requesting a 2-city core path. -/
def cfg3b : Config :=
  { cities := ["A", "B", "C"]
    distances := fun i j => if i = j then 0 else 1
    demand := [0, 0, 0]
    core_city_count := 2
    core_net_is_cycle := false }

/-- A feasible solution of `cfg3b` marking `(0, 2)` as a sub edge although
it carries no flow (possible because `min(demand) = 0`). -/
def asg5 : Assignment :=
  { is_control_center := fun i => if i = 0 then 1 else 0
    is_core_edge := fun e => if e = (0, 1) then 1 else 0
    is_core_city := fun i => if i < 2 then 1 else 0
    is_connected_step := fun i t =>
      if (i, t) = (0, 0) ∨ (i, t) = (1, 1) then 1 else 0
    is_connectable_step := fun i j t =>
      if (i, j, t) = (0, 1, 1) then 1 else 0
    flow := fun _ => 0
    abs_flow := fun _ => 0
    is_sub_edge := fun e => if e = (0, 2) then 1 else 0
    edge_cost := fun e => if e = (0, 2) then 10 else 0 }

/-- Three cities with unit demands (so `min(demand) = 1 > 0`), requesting a
2-city core path. -/
def cfgP : Config :=
  { cities := ["A", "B", "C"]
    distances := fun i j => if i = j then 0 else 1
    demand := [1, 1, 1]
    core_city_count := 2
    core_net_is_cycle := false }

/-- A feasible solution of `cfgP`: control center `0` supplies cities `1`
and `2`, the core edge `(0,1)` carries one unit toward `1` and the sub edge
`(0,2)` carries one unit toward `2`. -/
def asgP : Assignment :=
  { is_control_center := fun i => if i = 0 then 1 else 0
    is_core_edge := fun e => if e = (0, 1) then 1 else 0
    is_core_city := fun i => if i < 2 then 1 else 0
    is_connected_step := fun i t =>
      if (i, t) = (0, 0) ∨ (i, t) = (1, 1) then 1 else 0
    is_connectable_step := fun i j t =>
      if (i, j, t) = (0, 1, 1) then 1 else 0
    flow := fun e => if e = (0, 1) ∨ e = (0, 2) then -1 else 0
    abs_flow := fun e => if e = (0, 1) ∨ e = (0, 2) then 1 else 0
    is_sub_edge := fun e => if e = (0, 2) then 1 else 0
    edge_cost := fun e => if e = (0, 2) then 11 else 0 }

/-- Two cities whose demands sum to `-1 < 0`. -/
def cfgNeg : Config :=
  { cities := ["A", "B"]
    distances := fun _ _ => 1
    demand := [-1, 0]
    core_city_count := 1
    core_net_is_cycle := false }

/-! ## Theorems -/

theorem IsBinary.nonneg {q : ℚ} (h : IsBinary q) : 0 ≤ q := by
  rcases h with h | h <;> simp [h]

theorem IsBinary.le_one {q : ℚ} (h : IsBinary q) : q ≤ 1 := by
  rcases h with h | h <;> simp [h]

/-! ### Basic properties of `normalize` -/

theorem normalize_comm {α : Type} [LinearOrder α] (i j : α) :
    normalize i j = normalize j i := by
  unfold normalize
  rcases lt_trichotomy i j with h | h | h
  · simp [h, not_lt.mpr h.le]
  · simp [h]
  · simp [h, not_lt.mpr h.le]

theorem normalize_eq_or {α : Type} [LinearOrder α] (i j : α) :
    normalize i j = (i, j) ∨ normalize i j = (j, i) := by
  unfold normalize
  split <;> simp

theorem normalize_of_lt {α : Type} [LinearOrder α] {i j : α} (h : i < j) :
    normalize i j = (i, j) := by
  simp [normalize, h]

theorem normalize_of_gt {α : Type} [LinearOrder α] {i j : α} (h : j < i) :
    normalize i j = (j, i) := by
  simp [normalize, not_lt.mpr h.le]

theorem normalize_fst_lt_snd {α : Type} [LinearOrder α] {i j : α} (h : i ≠ j) :
    (normalize i j).1 < (normalize i j).2 := by
  unfold normalize
  rcases lt_trichotomy i j with hlt | heq | hgt
  · simp [hlt]
  · exact absurd heq h
  · simp [not_lt.mpr hgt.le, hgt]

/-! ### Membership facts about `CITIES` and `EDGES` -/

theorem mem_EDGES_iff {cfg : Config} {e : ℕ × ℕ} :
    e ∈ cfg.EDGES ↔ e.1 < e.2 ∧ e.2 < cfg.C := by
  unfold Config.EDGES
  simp only [Finset.mem_filter, Finset.mem_product, Finset.mem_range]
  constructor
  · rintro ⟨⟨h1, h2⟩, hlt⟩
    exact ⟨hlt, h2⟩
  · rintro ⟨hlt, h2⟩
    exact ⟨⟨lt_trans hlt h2, h2⟩, hlt⟩

theorem normalize_mem_EDGES {cfg : Config} {i j : ℕ} (hi : i ∈ cfg.CITIES)
    (hj : j ∈ cfg.CITIES) (hne : i ≠ j) : normalize i j ∈ cfg.EDGES := by
  rw [Config.CITIES, Finset.mem_range] at hi hj
  rcases normalize_eq_or i j with h | h <;>
    · rw [h, mem_EDGES_iff]
      constructor
      · simpa [h] using normalize_fst_lt_snd hne
      · simpa using by omega

/-! ### Sums of binary-valued variables -/

theorem sum_binary_unique {s : Finset ℕ} {f : ℕ → ℚ}
    (hb : ∀ x ∈ s, IsBinary (f x)) (hs : ∑ x ∈ s, f x = 1) {i j : ℕ}
    (hi : i ∈ s) (hj : j ∈ s) (hfi : f i = 1) (hfj : f j = 1) : i = j := by
  by_contra hne
  have hsub : ({i, j} : Finset ℕ) ⊆ s := by
    intro x hx
    rcases Finset.mem_insert.mp hx with h | h
    · rwa [h]
    · rw [Finset.mem_singleton.mp h]; exact hj
  have hpair : ∑ x ∈ ({i, j} : Finset ℕ), f x = 2 := by
    rw [Finset.sum_pair hne, hfi, hfj]; norm_num
  have hle : ∑ x ∈ ({i, j} : Finset ℕ), f x ≤ ∑ x ∈ s, f x :=
    Finset.sum_le_sum_of_subset_of_nonneg hsub
      (fun x hx _ => (hb x hx).nonneg)
  rw [hpair, hs] at hle
  norm_num at hle

theorem sum_binary_exists_one {s : Finset ℕ} {f : ℕ → ℚ}
    (hb : ∀ x ∈ s, IsBinary (f x)) (h1 : 1 ≤ ∑ x ∈ s, f x) :
    ∃ j ∈ s, f j = 1 := by
  by_contra hcon
  push_neg at hcon
  have hz : ∑ x ∈ s, f x = 0 := Finset.sum_eq_zero fun x hx => by
    rcases hb x hx with h | h
    · exact h
    · exact absurd h (hcon x hx)
  rw [hz] at h1
  norm_num at h1

theorem sum_le_one_others_zero {s : Finset ℕ} {f : ℕ → ℚ}
    (hnn : ∀ x ∈ s, 0 ≤ f x) (hs : ∑ x ∈ s, f x ≤ 1) {t : ℕ} (ht : t ∈ s)
    (hft : f t = 1) : ∀ u ∈ s, u ≠ t → f u = 0 := by
  intro u hu hut
  have hkey : f t + ∑ x ∈ s.erase t, f x = ∑ x ∈ s, f x :=
    Finset.add_sum_erase s f ht
  have hnn' : ∀ x ∈ s.erase t, 0 ≤ f x := fun x hx =>
    hnn x (Finset.mem_of_mem_erase hx)
  have hzero : ∑ x ∈ s.erase t, f x = 0 := by
    have h0 : ∑ x ∈ s.erase t, f x ≤ 0 := by
      rw [hft] at hkey; linarith
    exact le_antisymm h0 (Finset.sum_nonneg hnn')
  exact (Finset.sum_eq_zero_iff_of_nonneg hnn').mp hzero u
    (Finset.mem_erase.mpr ⟨hut, hu⟩)

/-! ### Connectivity of the core subgraph (claim C1) -/

theorem connected_step_reachable (cfg : Config) (a : Assignment)
    (hf : FeasibleLin cfg a) {c : ℕ} (hc : c ∈ cfg.CITIES)
    (hcc : a.is_control_center c = 1) :
    ∀ t, t < cfg.core_city_count → ∀ i, i ∈ cfg.CITIES →
      a.is_connected_step i t = 1 →
      Relation.ReflTransGen (coreEdgeAdj cfg a) c i := by
  intro t
  induction t with
  | zero =>
    intro _ i hi hconn
    have h0 := hf.step_zero i hi
    have hi1 : a.is_control_center i = 1 := by rw [← h0]; exact hconn
    have : i = c :=
      sum_binary_unique hf.binary_control hf.one_control_center hi hc hi1 hcc
    rw [this]
  | succ t ih =>
    intro hT i hi hconn
    have hTm : t < cfg.core_city_count := lt_trans (Nat.lt_succ_self t) hT
    -- By the closure constraint, `i` is connected at no step other than
    -- `t+1`; in particular not at `t`.
    have hprev : a.is_connected_step i t = 0 := by
      have hsum := hf.closure i hi
      have hle : ∑ s ∈ Finset.range cfg.core_city_count,
          a.is_connected_step i s ≤ 1 := by
        rw [hsum]; exact (hf.binary_core_city i hi).le_one
      exact sum_le_one_others_zero
        (fun s hs => (hf.binary_connected i hi s hs).nonneg) hle
        (Finset.mem_range.mpr hT) hconn t (Finset.mem_range.mpr hTm)
        (by omega)
    have htIco : t + 1 ∈ Finset.Ico 1 cfg.core_city_count :=
      Finset.mem_Ico.mpr ⟨by omega, hT⟩
    -- The propagation constraint produces a witness `j` with the
    -- connectable variable set.
    have hprop := hf.propagation (t + 1) htIco i hi
    have h1le : 1 ≤ ∑ j ∈ cfg.CITIES.erase i,
        a.is_connectable_step (normalize i j).1 (normalize i j).2 (t + 1) := by
      rw [← hconn]; exact hprop
    have hbinc : ∀ j ∈ cfg.CITIES.erase i,
        IsBinary (a.is_connectable_step (normalize i j).1 (normalize i j).2
          (t + 1)) := by
      intro j hj
      have hj' : j ∈ cfg.CITIES := Finset.mem_of_mem_erase hj
      rcases normalize_eq_or i j with h | h
      · rw [h]; exact hf.binary_connectable i hi j hj' (t + 1) htIco
      · rw [h]; exact hf.binary_connectable j hj' i hi (t + 1) htIco
    obtain ⟨j, hjmem, hj1⟩ := sum_binary_exists_one hbinc h1le
    have hj' : j ∈ cfg.CITIES := Finset.mem_of_mem_erase hjmem
    have hne : j ≠ i := (Finset.mem_erase.mp hjmem).1
    -- The linking constraint forces `j` connected at `t` and the edge core.
    have hedge : normalize i j ∈ cfg.EDGES :=
      normalize_mem_EDGES hi hj' (fun h => hne h.symm)
    have hlink := hf.linking (t + 1) htIco (normalize i j) hedge
    rw [hj1] at hlink
    have hsucc : t + 1 - 1 = t := rfl
    rw [hsucc] at hlink
    have hjC : a.is_connected_step j t = 1 ∧
        a.is_core_edge (normalize i j) = 1 := by
      have hbj : IsBinary (a.is_connected_step j t) :=
        hf.binary_connected j hj' t (Finset.mem_range.mpr hTm)
      have hbe : IsBinary (a.is_core_edge (normalize i j)) :=
        hf.binary_core_edge (normalize i j) hedge
      rcases normalize_eq_or i j with h | h <;> rw [h] at hlink hbe ⊢ <;>
        · dsimp only at hlink hbe ⊢
          rw [hprev] at hlink
          rcases hbj with h1 | h1 <;> rcases hbe with h2 | h2 <;>
            rw [h1, h2] at hlink <;>
            first
            | exact ⟨h1, h2⟩
            | norm_num at hlink
    refine Relation.ReflTransGen.tail (ih hTm j hj' hjC.1) ?_
    refine ⟨hj', hi, hne, ?_⟩
    rw [normalize_comm j i]
    exact hjC.2

/-- C1: in every feasible assignment, every core city is reachable from any
control-center city in the undirected graph of solved core edges. -/
theorem spec_C1 (cfg : Config) (a : Assignment) (hf : Feasible cfg a)
    (c : ℕ) (hc : c ∈ cfg.CITIES) (hcc : a.is_control_center c = 1)
    (i : ℕ) (hi : i ∈ cfg.CITIES) (hcore : a.is_core_city i = 1) :
    Relation.ReflTransGen (coreEdgeAdj cfg a) c i := by
  have hclos := hf.lin.closure i hi
  rw [hcore] at hclos
  obtain ⟨t, ht, hct⟩ := sum_binary_exists_one
    (fun t htm => hf.lin.binary_connected i hi t htm) (le_of_eq hclos.symm)
  exact connected_step_reachable cfg a hf.lin hc hcc t
    (Finset.mem_range.mp ht) i hi hct

/-! ### The linking constraint (claim C2) -/

/-- C2 (amended): if `is_connectable_step[i,j,t] = 1` for an edge `(i,j)`
with `1 ≤ t < T`, then the linking constraint forces at least two of the
three quantities `is_connected_step[i,t-1]`, `is_connected_step[j,t-1]`,
`is_core_edge[(i,j)]` to equal `1` (not all three, see the counterexample). -/
theorem spec_C2_amended (cfg : Config) (a : Assignment) (hf : Feasible cfg a)
    (t : ℕ) (ht : t ∈ Finset.Ico 1 cfg.core_city_count) (e : ℕ × ℕ)
    (he : e ∈ cfg.EDGES) (hc : a.is_connectable_step e.1 e.2 t = 1) :
    (a.is_connected_step e.1 (t - 1) = 1 ∧ a.is_connected_step e.2 (t - 1) = 1) ∨
    (a.is_connected_step e.1 (t - 1) = 1 ∧ a.is_core_edge e = 1) ∨
    (a.is_connected_step e.2 (t - 1) = 1 ∧ a.is_core_edge e = 1) := by
  have hlink := hf.lin.linking t ht e he
  rw [hc] at hlink
  obtain ⟨he1, he2C⟩ := mem_EDGES_iff.mp he
  have h1C : e.1 ∈ cfg.CITIES := Finset.mem_range.mpr (lt_trans he1 he2C)
  have h2C : e.2 ∈ cfg.CITIES := Finset.mem_range.mpr he2C
  have htm : t - 1 ∈ Finset.range cfg.core_city_count := by
    rw [Finset.mem_Ico] at ht
    rw [Finset.mem_range]
    omega
  have hb1 : IsBinary (a.is_connected_step e.1 (t - 1)) :=
    hf.lin.binary_connected e.1 h1C (t - 1) htm
  have hb2 : IsBinary (a.is_connected_step e.2 (t - 1)) :=
    hf.lin.binary_connected e.2 h2C (t - 1) htm
  have hbe : IsBinary (a.is_core_edge e) := hf.lin.binary_core_edge e he
  rcases hb1 with h1 | h1 <;> rcases hb2 with h2 | h2 <;>
    rcases hbe with h3 | h3 <;> rw [h1, h2, h3] at hlink <;>
    first
    | exact Or.inl ⟨h1, h2⟩
    | exact Or.inr (Or.inl ⟨h1, h3⟩)
    | exact Or.inr (Or.inr ⟨h2, h3⟩)
    | norm_num at hlink

/-! ### Core-degree invariant (claim C4) -/

theorem coreDegree_cast (cfg : Config) (a : Assignment)
    (hf : FeasibleLin cfg a) {i : ℕ} (hi : i ∈ cfg.CITIES) :
    ∑ j ∈ cfg.CITIES.erase i, a.is_core_edge (normalize i j) =
      (coreDegree cfg a i : ℚ) := by
  unfold coreDegree
  rw [Finset.natCast_card_filter]
  refine Finset.sum_congr rfl fun j hj => ?_
  have hj' : j ∈ cfg.CITIES := Finset.mem_of_mem_erase hj
  have hne : i ≠ j := fun h => (Finset.mem_erase.mp hj).1 h.symm
  rcases hf.binary_core_edge (normalize i j)
      (normalize_mem_EDGES hi hj' hne) with h | h <;> simp [h]

/-- C4: every core city has core-degree exactly 1 or 2, and every non-core
city has core-degree 0. -/
theorem spec_C4 (cfg : Config) (a : Assignment) (hf : Feasible cfg a)
    (i : ℕ) (hi : i ∈ cfg.CITIES) :
    (a.is_core_city i = 1 →
      coreDegree cfg a i = 1 ∨ coreDegree cfg a i = 2) ∧
    (a.is_core_city i = 0 → coreDegree cfg a i = 0) := by
  have hub := hf.lin.core_city_ub i hi
  have hdeg := hf.lin.degree_bound i hi
  rw [coreDegree_cast cfg a hf.lin hi] at hub hdeg
  constructor
  · intro h1
    rw [h1] at hub hdeg
    have hlo : (1 : ℚ) ≤ (coreDegree cfg a i : ℚ) := hub
    have hhi : (coreDegree cfg a i : ℚ) ≤ 2 := by linarith
    have hlo' : 1 ≤ coreDegree cfg a i := by exact_mod_cast hlo
    have hhi' : coreDegree cfg a i ≤ 2 := by exact_mod_cast hhi
    omega
  · intro h0
    rw [h0] at hdeg
    have : (coreDegree cfg a i : ℚ) ≤ 0 := by linarith
    have h' : (coreDegree cfg a i : ℚ) = 0 :=
      le_antisymm this (by positivity)
    exact_mod_cast h'

/-! ### Sub edges and flow (claim C5) -/

/-- C5 (amended): the constraint `min(demand) * is_sub_edge[e] <= abs_flow[e]`
forces positive flow on every sub edge, provided `min(demand) > 0`.  (For
arbitrary signed demands the claim fails, see the counterexample.) -/
theorem spec_C5_amended (cfg : Config) (a : Assignment) (hf : Feasible cfg a)
    (hmin : 0 < cfg.minDemand) (e : ℕ × ℕ) (he : e ∈ cfg.EDGES)
    (hsub : a.is_sub_edge e = 1) : 0 < a.abs_flow e := by
  have h := hf.lin.sub_edge_needs_flow e he
  rw [hsub, mul_one] at h
  linarith

/-! ### The big-M constant (claim C6) -/

/-- C6: when `is_core_edge[e] = 1`, the edge-cost constraint is satisfied
with `edge_cost[e] = 0` for every binary `is_sub_edge` value and every
`abs_flow` value within its bounds `[0, sum(demand)]`, provided
`D[e] >= 0` and `sum(demand) >= 0`: the constant `M(e)` makes the
constraint vacuous on core edges. -/
theorem spec_C6 (cfg : Config) (e : ℕ × ℕ) (subv fv : ℚ)
    (hd : 0 ≤ cfg.distAt e) (hs : 0 ≤ cfg.sumDemand) (hsub : IsBinary subv)
    (hf0 : 0 ≤ fv) (hf1 : fv ≤ cfg.sumDemand) :
    10 * (subv : ℝ) + pow15 (0.1 * (cfg.distAt e : ℝ)) * (fv : ℝ) ≤
      (0 : ℝ) + bigM cfg e * 1 := by
  have hd' : (0 : ℝ) ≤ 0.1 * (cfg.distAt e : ℝ) := by
    have : (0 : ℝ) ≤ (cfg.distAt e : ℝ) := by exact_mod_cast hd
    linarith
  have hP : 0 ≤ pow15 (0.1 * (cfg.distAt e : ℝ)) :=
    Real.rpow_nonneg hd' _
  have hsub' : (subv : ℝ) ≤ 1 := by exact_mod_cast hsub.le_one
  have hfv : pow15 (0.1 * (cfg.distAt e : ℝ)) * (fv : ℝ) ≤
      pow15 (0.1 * (cfg.distAt e : ℝ)) * (cfg.sumDemand : ℝ) := by
    apply mul_le_mul_of_nonneg_left _ hP
    exact_mod_cast hf1
  unfold bigM
  linarith

/-! ### Flow balance at each city (claim C3) -/

theorem inout_term (q : ℚ) (x y i : ℕ) (hxy : x ≠ y) :
    |q| * (if (y = i ∧ 0 < q) ∨ (x = i ∧ q < 0) then 1 else 0) -
      |q| * (if (x = i ∧ 0 < q) ∨ (y = i ∧ q < 0) then 1 else 0) =
      (if y = i then q else if x = i then -q else 0) := by
  rcases lt_trichotomy q 0 with hq | hq | hq
  · have h1 : ¬(0 : ℚ) < q := by linarith
    by_cases hy : y = i
    · have hx : ¬x = i := fun hx => hxy (hx.trans hy.symm)
      simp [hy, hx, hq, h1, abs_of_neg hq]
    · by_cases hx : x = i
      · simp [hy, hx, hq, h1, abs_of_neg hq]
      · simp [hy, hx, hq, h1]
  · subst hq
    simp
  · have h1 : ¬q < 0 := by linarith
    by_cases hy : y = i
    · have hx : ¬x = i := fun hx => hxy (hx.trans hy.symm)
      simp [hy, hx, hq, h1, abs_of_pos hq]
    · by_cases hx : x = i
      · simp [hy, hx, hq, h1, abs_of_pos hq]
      · simp [hy, hx, hq, h1]

/-- The signed flow imbalance computed by `city_info` equals the sum
appearing in the conservation-of-flow constraint. -/
theorem inout_sum (cfg : Config) (a : Assignment) {i : ℕ}
    (hi : i ∈ cfg.CITIES) :
    IngoingFlow cfg a i - OutgoingFlow cfg a i =
      ∑ j ∈ cfg.CITIES.erase i,
        a.flow (normalize i j) * (if i > j then 1 else -1) := by
  have hiC : i < cfg.C := Finset.mem_range.mp hi
  unfold IngoingFlow OutgoingFlow
  rw [← Finset.sum_sub_distrib]
  have hstep : ∀ e ∈ cfg.EDGES,
      (|a.flow e| *
          (if (e.2 = i ∧ 0 < a.flow e) ∨ (e.1 = i ∧ a.flow e < 0) then 1
            else 0) -
        |a.flow e| *
          (if (e.1 = i ∧ 0 < a.flow e) ∨ (e.2 = i ∧ a.flow e < 0) then 1
            else 0)) =
      (if e.2 = i then a.flow e else if e.1 = i then -a.flow e else 0) :=
    fun e he => inout_term (a.flow e) e.1 e.2 i
      (ne_of_lt (mem_EDGES_iff.mp he).1)
  rw [Finset.sum_congr rfl hstep]
  have hne0 : ∀ e ∈ cfg.EDGES,
      (if e.2 = i then a.flow e else if e.1 = i then -a.flow e else 0) ≠ 0 →
      (e.1 = i ∨ e.2 = i) := by
    intro e _ hne
    by_cases h2 : e.2 = i
    · exact Or.inr h2
    · by_cases h1 : e.1 = i
      · exact Or.inl h1
      · rw [if_neg h2, if_neg h1] at hne
        exact absurd rfl hne
  rw [← Finset.sum_filter_of_ne hne0]
  refine Finset.sum_nbij' (fun e => if e.1 = i then e.2 else e.1)
    (fun j => normalize i j) ?_ ?_ ?_ ?_ ?_
  · intro e he
    dsimp only
    obtain ⟨heE, hor⟩ := Finset.mem_filter.mp he
    obtain ⟨hlt, h2C⟩ := mem_EDGES_iff.mp heE
    rcases hor with h1 | h2
    · rw [if_pos h1]
      exact Finset.mem_erase.mpr ⟨by omega, Finset.mem_range.mpr h2C⟩
    · rw [if_neg (by omega : ¬e.1 = i)]
      exact Finset.mem_erase.mpr
        ⟨by omega, Finset.mem_range.mpr (lt_trans hlt h2C)⟩
  · intro j hj
    dsimp only
    obtain ⟨hne, hjm⟩ := Finset.mem_erase.mp hj
    refine Finset.mem_filter.mpr
      ⟨normalize_mem_EDGES hi hjm (fun h => hne h.symm), ?_⟩
    rcases normalize_eq_or i j with h | h <;> rw [h]
    · exact Or.inl rfl
    · exact Or.inr rfl
  · intro e he
    dsimp only
    obtain ⟨heE, hor⟩ := Finset.mem_filter.mp he
    obtain ⟨hlt, _⟩ := mem_EDGES_iff.mp heE
    rcases hor with h1 | h2
    · rw [if_pos h1, normalize_of_lt (by omega : i < e.2), ← h1]
    · rw [if_neg (by omega : ¬e.1 = i), normalize_of_gt (by omega : e.1 < i),
        ← h2]
  · intro j hj
    dsimp only
    obtain ⟨hne, _⟩ := Finset.mem_erase.mp hj
    rcases lt_or_gt_of_ne (fun h => hne h.symm : i ≠ j) with h | h
    · rw [normalize_of_lt h]
      simp
    · rw [normalize_of_gt h]
      exact if_neg (by omega)
  · intro e he
    dsimp only
    obtain ⟨heE, hor⟩ := Finset.mem_filter.mp he
    obtain ⟨hlt, _⟩ := mem_EDGES_iff.mp heE
    rcases hor with h1 | h2
    · rw [if_neg (by omega : ¬e.2 = i), if_pos h1, if_pos h1,
        normalize_of_lt (by omega : i < e.2),
        if_neg (by omega : ¬i > e.2), mul_neg_one, ← h1, Prod.mk.eta]
    · rw [if_pos h2, if_neg (by omega : ¬e.1 = i),
        normalize_of_gt (by omega : e.1 < i),
        if_pos (by omega : i > e.1), mul_one, ← h2, Prod.mk.eta]

/-- C3: when the solved values satisfy the constraints exactly, the
`IngoingFlow`/`OutgoingFlow` columns of `city_info` balance to `-demand[i]`
at every non-control-center city and to `sum(demand) - demand[i]` at the
control center. -/
theorem spec_C3 (cfg : Config) (a : Assignment) (hf : Feasible cfg a)
    (i : ℕ) (hi : i ∈ cfg.CITIES) :
    (a.is_control_center i = 0 →
      IngoingFlow cfg a i - OutgoingFlow cfg a i = -cfg.demandAt i) ∧
    (a.is_control_center i = 1 →
      IngoingFlow cfg a i - OutgoingFlow cfg a i =
        cfg.sumDemand - cfg.demandAt i) := by
  have hcons := hf.lin.conservation i hi
  have hkey := inout_sum cfg a hi
  constructor
  · intro h0
    rw [h0, mul_zero] at hcons
    rw [hkey]
    linarith
  · intro h1
    rw [h1, mul_one] at hcons
    rw [hkey]
    linarith

/-! ### Negative total demand (claim C10) -/

/-- C10: with at least two cities and strictly negative total demand, the
variable bounds `0 <= abs_flow[e] <= sum(demand)` are already contradictory,
so no assignment is feasible. -/
theorem spec_C10 (cfg : Config) (h2 : 2 ≤ cfg.C)
    (hneg : cfg.sumDemand < 0) : ¬∃ a : Assignment, Feasible cfg a := by
  rintro ⟨a, hf⟩
  have he : ((0, 1) : ℕ × ℕ) ∈ cfg.EDGES := by
    rw [mem_EDGES_iff]
    exact ⟨by norm_num, by omega⟩
  have hlb := hf.lin.abs_flow_lb (0, 1) he
  have hub := hf.lin.abs_flow_ub (0, 1) he
  linarith

/-! ### A decidable sufficient condition for the edge-cost constraint -/

/-- Rational-arithmetic conditions under which the real-valued edge-cost
constraint holds, used to verify the concrete assignments below. -/
theorem edgeCostLB_of (cfg : Config) (a : Assignment)
    (h : ∀ e ∈ cfg.EDGES, 0 ≤ cfg.distAt e ∧ IsBinary (a.is_core_edge e) ∧
      IsBinary (a.is_sub_edge e) ∧ 0 ≤ a.abs_flow e ∧
      a.abs_flow e ≤ cfg.sumDemand ∧ 0 ≤ a.edge_cost e ∧
      (a.is_core_edge e = 0 → cfg.distAt e ≤ 10 ∧
        10 * a.is_sub_edge e + a.abs_flow e ≤ a.edge_cost e)) :
    edgeCostLB cfg a := by
  intro e he
  obtain ⟨hd, hcore, hsub, haf0, hafS, hec, himp⟩ := h e he
  have hd' : (0 : ℝ) ≤ 0.1 * (cfg.distAt e : ℝ) := by
    have : (0 : ℝ) ≤ (cfg.distAt e : ℝ) := by exact_mod_cast hd
    linarith
  have hP : (0 : ℝ) ≤ pow15 (0.1 * (cfg.distAt e : ℝ)) :=
    Real.rpow_nonneg hd' _
  have haf0' : (0 : ℝ) ≤ (a.abs_flow e : ℝ) := by exact_mod_cast haf0
  rcases hcore with h0 | h1
  · obtain ⟨hd10, hlin⟩ := himp h0
    have hP1 : pow15 (0.1 * (cfg.distAt e : ℝ)) ≤ 1 := by
      apply Real.rpow_le_one hd'
      · have : (cfg.distAt e : ℝ) ≤ 10 := by exact_mod_cast hd10
        linarith
      · norm_num
    have hPaf : pow15 (0.1 * (cfg.distAt e : ℝ)) * (a.abs_flow e : ℝ) ≤
        (a.abs_flow e : ℝ) := mul_le_of_le_one_left haf0' hP1
    have hlin' : 10 * (a.is_sub_edge e : ℝ) + (a.abs_flow e : ℝ) ≤
        (a.edge_cost e : ℝ) := by exact_mod_cast hlin
    rw [h0]
    push_cast
    linarith
  · have hsub1 : (a.is_sub_edge e : ℝ) ≤ 1 := by exact_mod_cast hsub.le_one
    have hafS' : (a.abs_flow e : ℝ) ≤ (cfg.sumDemand : ℝ) := by
      exact_mod_cast hafS
    have hec' : (0 : ℝ) ≤ (a.edge_cost e : ℝ) := by exact_mod_cast hec
    have hPm : pow15 (0.1 * (cfg.distAt e : ℝ)) * (a.abs_flow e : ℝ) ≤
        pow15 (0.1 * (cfg.distAt e : ℝ)) * (cfg.sumDemand : ℝ) :=
      mul_le_mul_of_nonneg_left hafS' hP
    rw [h1]
    unfold bigM
    push_cast
    linarith

/-! ### Feasibility of the concrete assignments -/

unseal Rat.add Rat.mul Rat.sub Rat.inv Rat.ofScientific in
theorem asg3_feasible : Feasible cfg3 asg3 :=
  ⟨by decide, edgeCostLB_of cfg3 asg3 (by decide)⟩

unseal Rat.add Rat.mul Rat.sub Rat.inv Rat.ofScientific in
theorem asg5_feasible : Feasible cfg3b asg5 :=
  ⟨by decide, edgeCostLB_of cfg3b asg5 (by decide)⟩

unseal Rat.add Rat.mul Rat.sub Rat.inv Rat.ofScientific in
theorem asgP_feasible : Feasible cfgP asgP :=
  ⟨by decide, edgeCostLB_of cfgP asgP (by decide)⟩

/-! ### `non_zero` and the extraction tables (claims C7, C8) -/

theorem mem_non_zero {α : Type} (items : List (α × ℚ)) (k : α) :
    k ∈ non_zero items ↔ ∃ v : ℚ, (k, v) ∈ items ∧ 1e-9 < |v| := by
  unfold non_zero
  rw [List.mem_map]
  constructor
  · rintro ⟨⟨k', v⟩, ha, rfl⟩
    obtain ⟨hin, hp⟩ := List.mem_filter.mp ha
    exact ⟨v, hin, by simpa using hp⟩
  · rintro ⟨v, hin, hp⟩
    exact ⟨(k, v), List.mem_filter.mpr ⟨hin, by simpa using hp⟩, rfl⟩

theorem mem_non_zero_map (xs : List (ℕ × ℕ)) (v : ℕ × ℕ → ℚ) (k : ℕ × ℕ) :
    k ∈ non_zero (xs.map fun e => (e, v e)) ↔ k ∈ xs ∧ 1e-9 < |v k| := by
  rw [mem_non_zero]
  constructor
  · rintro ⟨w, hmem, hgt⟩
    obtain ⟨e, he, heq⟩ := List.mem_map.mp hmem
    obtain ⟨h1, h2⟩ := Prod.mk.injEq .. |>.mp heq
    subst h1
    exact ⟨he, by rwa [h2]⟩
  · rintro ⟨hk, hgt⟩
    exact ⟨v k, List.mem_map.mpr ⟨k, hk, rfl⟩, hgt⟩

theorem mem_EDGESlist {cfg : Config} {e : ℕ × ℕ} :
    e ∈ EDGESlist cfg ↔ e.1 < e.2 ∧ e.2 < cfg.C := by
  unfold EDGESlist
  simp only [List.mem_flatMap, List.mem_map, List.mem_filter, List.mem_range,
    decide_eq_true_eq]
  constructor
  · rintro ⟨i, hi, j, ⟨hj, hij⟩, rfl⟩
    exact ⟨hij, hj⟩
  · rintro ⟨h1, h2⟩
    exact ⟨e.1, by omega, e.2, ⟨h2, h1⟩, Prod.mk.eta⟩

theorem coreKeys_mem (cfg : Config) (a : Assignment) (e : ℕ × ℕ) :
    e ∈ coreKeys cfg a ↔
      (e.1 < e.2 ∧ e.2 < cfg.C) ∧ 1e-9 < |a.is_core_edge e| := by
  unfold coreKeys
  rw [mem_non_zero_map, mem_EDGESlist]

theorem utilizedKeys_mem (cfg : Config) (a : Assignment) (e : ℕ × ℕ) :
    e ∈ utilizedKeys cfg a ↔
      (e.1 < e.2 ∧ e.2 < cfg.C) ∧ 1e-9 < |a.flow e| := by
  unfold utilizedKeys
  rw [List.mem_map]
  constructor
  · rintro ⟨e', he', rfl⟩
    rw [mem_non_zero_map] at he'
    obtain ⟨he'', hv⟩ := he'
    rw [mem_EDGESlist] at he''
    rw [normalize_of_lt he''.1, Prod.mk.eta]
    exact ⟨he'', hv⟩
  · rintro ⟨⟨hlt, hC⟩, hv⟩
    refine ⟨e, ?_, ?_⟩
    · rw [mem_non_zero_map]
      exact ⟨mem_EDGESlist.mpr ⟨hlt, hC⟩, hv⟩
    · rw [normalize_of_lt hlt, Prod.mk.eta]

theorem edgeInfoKeys_mem (cfg : Config) (a : Assignment) (e : ℕ × ℕ) :
    e ∈ edgeInfoKeys cfg a ↔ (e.1 < e.2 ∧ e.2 < cfg.C) ∧
      (1e-9 < |a.is_core_edge e| ∨ 1e-9 < |a.flow e|) := by
  unfold edgeInfoKeys
  rw [List.mem_dedup, List.mem_append, coreKeys_mem, utilizedKeys_mem]
  tauto

/-- C7: `edge_info` emits exactly one record per normalized edge pair whose
solved `is_core_edge` or `flow` value exceeds the `1e-9` tolerance in
absolute value, and no other record; a record's `Type` is `"CORE"` exactly
when the edge's `is_core_edge` value exceeds the tolerance. -/
theorem spec_C7 (cfg : Config) (a : Assignment) :
    (∀ e : ℕ × ℕ, e ∈ edgeInfoKeys cfg a ↔ e ∈ EDGESlist cfg ∧
      (1e-9 < |a.is_core_edge e| ∨ 1e-9 < |a.flow e|)) ∧
    (edgeInfoKeys cfg a).Nodup ∧
    edge_info cfg a =
      (edgeInfoKeys cfg a).map (mkEdgeRecord cfg a (coreKeys cfg a)) ∧
    (∀ e ∈ edgeInfoKeys cfg a,
      ((mkEdgeRecord cfg a (coreKeys cfg a) e).«Type» = "CORE" ↔
        1e-9 < |a.is_core_edge e|)) := by
  refine ⟨?_, List.nodup_dedup _, rfl, ?_⟩
  · intro e
    rw [edgeInfoKeys_mem, mem_EDGESlist]
  · intro e he
    obtain ⟨⟨hlt, hC⟩, _⟩ := (edgeInfoKeys_mem cfg a e).mp he
    unfold mkEdgeRecord
    dsimp only
    rw [normalize_of_lt hlt, Prod.mk.eta]
    by_cases h : e ∈ coreKeys cfg a
    · rw [if_pos h]
      exact ⟨fun _ => ((coreKeys_mem cfg a e).mp h).2, fun _ => rfl⟩
    · rw [if_neg h]
      constructor
      · intro hcon
        exact absurd hcon (by decide)
      · intro hv
        exact absurd ((coreKeys_mem cfg a e).mpr ⟨⟨hlt, hC⟩, hv⟩) h

/-- C8: `non_zero` yields a key exactly when the associated value's absolute
value strictly exceeds `1e-9`; a value of exactly `1e-9` (or `-1e-9`) is
treated as zero while `1.1e-9` is treated as non-zero. -/
theorem spec_C8 (items : List (ℕ × ℚ)) (k : ℕ) :
    (k ∈ non_zero items ↔ ∃ v : ℚ, (k, v) ∈ items ∧ 1e-9 < |v|) ∧
    non_zero [((0 : ℕ), (1e-9 : ℚ))] = [] ∧
    non_zero [((0 : ℕ), (-1e-9 : ℚ))] = [] ∧
    non_zero [((0 : ℕ), (1.1e-9 : ℚ))] = [0] := by
  refine ⟨mem_non_zero items k, ?_, ?_, ?_⟩ <;>
    · unfold non_zero
      norm_num [abs_neg, abs_of_pos]

/-! ### Properties of `normalize` (claim C9) -/

/-- C9: for distinct integers, `normalize` is commutative and idempotent,
and always puts the smaller component first. -/
theorem spec_C9 (i j : ℤ) (hne : i ≠ j) :
    normalize i j = normalize j i ∧
    normalize (normalize i j).1 (normalize i j).2 = normalize i j ∧
    (normalize i j).1 < (normalize i j).2 := by
  refine ⟨normalize_comm i j, ?_, normalize_fst_lt_snd hne⟩
  rw [normalize_of_lt (normalize_fst_lt_snd hne), Prod.mk.eta]

/-! ### Counterexamples and witnesses -/

unseal Rat.add Rat.mul Rat.sub Rat.inv Rat.ofScientific in
/-- C2 counterexample: in the feasible assignment `asg3` of `cfg3`,
`is_connectable_step[1,2,2] = 1` with `t = 2 ∈ [1, T)` and edge `(1,2)`,
yet `is_core_edge[normalize(1,2)] = 0`: the linking constraint does not
force all three conditions. -/
theorem spec_C2_counterexample :
    Feasible cfg3 asg3 ∧ (1 ≤ 2 ∧ 2 < cfg3.core_city_count) ∧
    ((1, 2) : ℕ × ℕ) ∈ cfg3.EDGES ∧
    asg3.is_connectable_step 1 2 2 = 1 ∧
    ¬(asg3.is_connected_step 1 (2 - 1) = 1 ∧
      asg3.is_connected_step 2 (2 - 1) = 1 ∧
      asg3.is_core_edge (normalize 1 2) = 1) :=
  ⟨asg3_feasible, by decide, by decide, by decide, by decide⟩

/-- Witness for the amended C2 at `cfg3`, `asg3`, `t = 2`, edge `(1,2)`. -/
theorem spec_C2_amended_witness :
    (asg3.is_connected_step 1 (2 - 1) = 1 ∧
      asg3.is_connected_step 2 (2 - 1) = 1) ∨
    (asg3.is_connected_step 1 (2 - 1) = 1 ∧ asg3.is_core_edge (1, 2) = 1) ∨
    (asg3.is_connected_step 2 (2 - 1) = 1 ∧ asg3.is_core_edge (1, 2) = 1) :=
  spec_C2_amended cfg3 asg3 asg3_feasible 2 (by decide) (1, 2) (by decide)
    (by decide)

/-- Witness for C1: in `asg3`, city `2` is reachable from the control
center `0`. -/
theorem spec_C1_witness :
    Relation.ReflTransGen (coreEdgeAdj cfg3 asg3) 0 2 :=
  spec_C1 cfg3 asg3 asg3_feasible 0 (by decide) (by decide) 2 (by decide)
    (by decide)

unseal Rat.add Rat.mul Rat.sub Rat.inv Rat.ofScientific in
/-- Witness for C3 at `cfgP`, `asgP`, city `2` (not the control center). -/
theorem spec_C3_witness :
    IngoingFlow cfgP asgP 2 - OutgoingFlow cfgP asgP 2 =
      -cfgP.demandAt 2 :=
  (spec_C3 cfgP asgP asgP_feasible 2 (by decide)).1 (by decide)

/-- Witness for C4 at `cfg3`, `asg3`, core city `1`. -/
theorem spec_C4_witness :
    coreDegree cfg3 asg3 1 = 1 ∨ coreDegree cfg3 asg3 1 = 2 :=
  (spec_C4 cfg3 asg3 asg3_feasible 1 (by decide)).1 (by decide)

unseal Rat.add Rat.mul Rat.sub Rat.inv Rat.ofScientific in
/-- C5 counterexample: in the feasible assignment `asg5` of `cfg3b` (whose
demands are all zero, so `min(demand) = 0`), edge `(0,2)` is marked as a
sub edge although it carries no flow. -/
theorem spec_C5_counterexample :
    Feasible cfg3b asg5 ∧ ((0, 2) : ℕ × ℕ) ∈ cfg3b.EDGES ∧
    asg5.is_sub_edge (0, 2) = 1 ∧ ¬(0 < asg5.abs_flow (0, 2)) :=
  ⟨asg5_feasible, by decide, by decide, by decide⟩

unseal Rat.add Rat.mul Rat.sub Rat.inv Rat.ofScientific in
/-- Witness for the amended C5 at `cfgP`, `asgP`, sub edge `(0,2)`. -/
theorem spec_C5_amended_witness : 0 < asgP.abs_flow (0, 2) :=
  spec_C5_amended cfgP asgP asgP_feasible (by decide) (0, 2) (by decide)
    (by decide)

unseal Rat.add Rat.mul Rat.sub Rat.inv Rat.ofScientific in
/-- Witness for C6 at `cfgP`, edge `(0,1)`, `is_sub_edge = 1`,
`abs_flow = 0`. -/
theorem spec_C6_witness :
    10 * ((1 : ℚ) : ℝ) +
        pow15 (0.1 * (cfgP.distAt (0, 1) : ℝ)) * ((0 : ℚ) : ℝ) ≤
      (0 : ℝ) + bigM cfgP (0, 1) * 1 :=
  spec_C6 cfgP (0, 1) 1 0 (by decide) (by decide) (by decide) (by decide)
    (by decide)

unseal Rat.add Rat.mul Rat.sub Rat.inv Rat.ofScientific in
/-- Witness for C7's `Type` clause at `cfgP`, `asgP`, edge `(0,1)`. -/
theorem spec_C7_witness :
    (mkEdgeRecord cfgP asgP (coreKeys cfgP asgP) (0, 1)).«Type» = "CORE" ↔
      (1e-9 : ℚ) < |asgP.is_core_edge (0, 1)| :=
  (spec_C7 cfgP asgP).2.2.2 (0, 1) (by decide)

unseal Rat.add Rat.mul Rat.sub Rat.inv Rat.ofScientific in
/-- Witness for C8: the boundary behaviour evaluated concretely. -/
theorem spec_C8_witness :
    non_zero [((0 : ℕ), (1e-9 : ℚ))] = [] ∧
    non_zero [((0 : ℕ), (1.1e-9 : ℚ))] = [0] :=
  ⟨(spec_C8 [] 0).2.1, (spec_C8 [] 0).2.2.2⟩

/-- Witness for C9 at `i = 3`, `j = 1`. -/
theorem spec_C9_witness :
    normalize (3 : ℤ) 1 = normalize 1 3 ∧
    normalize (normalize (3 : ℤ) 1).1 (normalize (3 : ℤ) 1).2 =
      normalize (3 : ℤ) 1 ∧
    (normalize (3 : ℤ) 1).1 < (normalize (3 : ℤ) 1).2 :=
  spec_C9 3 1 (by decide)

unseal Rat.add Rat.mul Rat.sub Rat.inv Rat.ofScientific in
/-- Witness for C10 at `cfgNeg` (demands sum to `-1`). -/
theorem spec_C10_witness : ¬∃ a : Assignment, Feasible cfgNeg a :=
  spec_C10 cfgNeg (by decide) (by decide)

end Autonomax
